import Mathlib

/-!
Shallow embedding of the calendar logic of `src/main.rs` (a desktop calendar
viewer built on the `iced` GUI toolkit and `chrono` dates).

Dates are modelled as year/month/day triples with proleptic-Gregorian
validity, mirroring `chrono::NaiveDate`; date arithmetic (`+ Duration::days`)
is modelled by iterating a successor function, and the chronological order and
day counting are captured by a Rata-Die day number `toRD`.
-/

namespace CalendarView

/-- Proleptic Gregorian leap-year rule, as used by `chrono::NaiveDate`. -/
def isLeap (y : Int) : Bool := (y % 4 == 0 && y % 100 != 0) || y % 400 == 0

/-- Number of days in month `m` (1-based) of year `y`. -/
def daysInMonth (y : Int) (m : Nat) : Nat :=
  if m = 2 then (if isLeap y then 29 else 28)
  else if m = 4 ∨ m = 6 ∨ m = 9 ∨ m = 11 then 30
  else 31

/-- A calendar date: model of `chrono::NaiveDate` field content. -/
structure Date where
  year : Int
  month : Nat
  day : Nat
deriving DecidableEq, Repr

/-- Validity of a date under proleptic Gregorian rules. -/
def Date.Valid (d : Date) : Prop :=
  1 ≤ d.month ∧ d.month ≤ 12 ∧ 1 ≤ d.day ∧ d.day ≤ daysInMonth d.year d.month

instance (d : Date) : Decidable d.Valid := by
  unfold Date.Valid; infer_instance

/-- Chronological order on dates (`chrono` orders `NaiveDate` this way). -/
def dateLe (a b : Date) : Bool :=
  a.year < b.year ||
    (a.year == b.year &&
      (a.month < b.month || (a.month == b.month && a.day ≤ b.day)))

/-- The calendar successor of a date (next calendar day). -/
def nextDay (d : Date) : Date :=
  if d.day < daysInMonth d.year d.month then ⟨d.year, d.month, d.day + 1⟩
  else if d.month < 12 then ⟨d.year, d.month + 1, 1⟩
  else ⟨d.year + 1, 1, 1⟩

/-- The calendar predecessor of a date (previous calendar day). -/
def prevDay (d : Date) : Date :=
  if 1 < d.day then ⟨d.year, d.month, d.day - 1⟩
  else if 1 < d.month then ⟨d.year, d.month - 1, daysInMonth d.year (d.month - 1)⟩
  else ⟨d.year - 1, 12, 31⟩

/-- Model of `date + chrono::Duration::days(n)` for `n ≥ 0`. -/
def addDays (d : Date) : Nat → Date
  | 0 => d
  | n + 1 => nextDay (addDays d n)

/-- Model of `date - chrono::Duration::days(n)` for `n ≥ 0`. -/
def subDays (d : Date) : Nat → Date
  | 0 => d
  | n + 1 => prevDay (subDays d n)

/-- Model of `chrono::NaiveDate::with_day`: replace the day-of-month field,
returning `none` when the result would not be a real date. -/
def withDay (d : Date) (n : Nat) : Option Date :=
  if 1 ≤ n ∧ n ≤ daysInMonth d.year d.month then some ⟨d.year, d.month, n⟩
  else none

/-- The total version of `with_day(1).unwrap()` used throughout the source. -/
def withDay1 (d : Date) : Date := ⟨d.year, d.month, 1⟩

/-- Days in year `y` strictly before the first of month `m` (so the ordinal of
a date is `daysBeforeMonth` plus the day of month); chrono keeps the same
cumulative table inside `YearFlags`-based ordinal handling. -/
def daysBeforeMonth (y : Int) (m : Nat) : Nat :=
  let L : Nat := if isLeap y then 1 else 0
  match m with
  | 1 => 0
  | 2 => 31
  | 3 => 59 + L
  | 4 => 90 + L
  | 5 => 120 + L
  | 6 => 151 + L
  | 7 => 181 + L
  | 8 => 212 + L
  | 9 => 243 + L
  | 10 => 273 + L
  | 11 => 304 + L
  | 12 => 334 + L
  | _ => 0

/-- Day-of-year ordinal (1-based), the model of `chrono::Datelike::ordinal`. -/
def dayOfYear (d : Date) : Nat := daysBeforeMonth d.year d.month + d.day

/-- Number of days in year `y`. -/
def daysInYear (y : Int) : Nat := if isLeap y then 366 else 365

/-- Leap days among proleptic-Gregorian years `1..t` (count via floor sums). -/
def leapDays (t : Int) : Int := t / 4 - t / 100 + t / 400

/-- Rata-Die day number of the last day of year `y - 1`; day 1 is 0001-01-01. -/
def daysBeforeYear (y : Int) : Int := 365 * (y - 1) + leapDays (y - 1)

/-- Rata-Die day number of a date: the bridge between field-level dates and
day-count arithmetic. -/
def toRD (d : Date) : Int := daysBeforeYear d.year + dayOfYear d

/-- Model of `chrono::Weekday::num_days_from_sunday` (Sunday = 0 .. Saturday
= 6); Rata Die day 1 (0001-01-01) is a Monday. -/
def numDaysFromSunday (d : Date) : Nat := (toRD d % 7).toNat

example : toRD ⟨1, 1, 1⟩ = 1 := by decide
example : numDaysFromSunday ⟨2024, 2, 1⟩ = 4 := by decide
example : numDaysFromSunday ⟨2024, 1, 28⟩ = 0 := by decide
example : numDaysFromSunday ⟨2024, 3, 2⟩ = 6 := by decide
example : numDaysFromSunday ⟨2023, 12, 31⟩ = 0 := by decide
example : dayOfYear ⟨2024, 2, 29⟩ = 60 := by decide

/-! ### Month-length and validity facts -/

lemma daysInMonth_ge (y : Int) (m : Nat) : 28 ≤ daysInMonth y m := by
  unfold daysInMonth; split_ifs <;> omega

lemma daysInMonth_le (y : Int) (m : Nat) : daysInMonth y m ≤ 31 := by
  unfold daysInMonth; split_ifs <;> omega

lemma daysInMonth_twelve (y : Int) : daysInMonth y 12 = 31 := by
  unfold daysInMonth; norm_num

lemma nextDay_valid {d : Date} (h : d.Valid) : (nextDay d).Valid := by
  obtain ⟨y, m, day⟩ := d
  obtain ⟨hm1, hm2, hd1, hd2⟩ := h
  have g1 := daysInMonth_ge y (m + 1)
  have g2 := daysInMonth_ge (y + 1) 1
  dsimp only at *
  unfold nextDay
  dsimp only
  split_ifs with h1 h2 <;> simp only [Date.Valid] <;> omega

lemma prevDay_valid {d : Date} (h : d.Valid) : (prevDay d).Valid := by
  obtain ⟨y, m, day⟩ := d
  obtain ⟨hm1, hm2, hd1, hd2⟩ := h
  have g1 := daysInMonth_ge y (m - 1)
  have g2 := daysInMonth_twelve (y - 1)
  dsimp only at *
  unfold prevDay
  dsimp only
  split_ifs with h1 h2 <;> simp only [Date.Valid] <;> omega

lemma addDays_valid {d : Date} (h : d.Valid) (n : Nat) : (addDays d n).Valid := by
  induction n with
  | zero => exact h
  | succ k ih => exact nextDay_valid ih

lemma subDays_valid {d : Date} (h : d.Valid) (n : Nat) : (subDays d n).Valid := by
  induction n with
  | zero => exact h
  | succ k ih => exact prevDay_valid ih

lemma withDay1_valid {d : Date} (h : d.Valid) : (withDay1 d).Valid := by
  obtain ⟨y, m, day⟩ := d
  obtain ⟨hm1, hm2, hd1, hd2⟩ := h
  have g := daysInMonth_ge y m
  dsimp only at *
  simp only [withDay1, Date.Valid]
  omega

/-! ### Ordinal and day-number facts -/

lemma daysBeforeMonth_succ (y : Int) {m : Nat} (h1 : 1 ≤ m) (h2 : m ≤ 11) :
    daysBeforeMonth y (m + 1) = daysBeforeMonth y m + daysInMonth y m := by
  interval_cases m <;>
    cases hL : isLeap y <;>
      simp [daysBeforeMonth, daysInMonth, hL]

lemma daysBeforeMonth_add_le (y : Int) {m mb : Nat} (h1 : 1 ≤ m) (hlt : m < mb)
    (h2 : mb ≤ 12) : daysBeforeMonth y m + daysInMonth y m ≤ daysBeforeMonth y mb := by
  have hm11 : m ≤ 11 := by omega
  interval_cases m <;> interval_cases mb <;>
    cases hL : isLeap y <;>
      simp [daysBeforeMonth, daysInMonth, hL]

lemma dayOfYear_bounds {d : Date} (h : d.Valid) :
    1 ≤ dayOfYear d ∧ dayOfYear d ≤ daysInYear d.year := by
  obtain ⟨y, m, day⟩ := d
  obtain ⟨hm1, hm2, hd1, hd2⟩ := h
  dsimp only at *
  unfold dayOfYear
  dsimp only
  interval_cases m <;>
    cases hL : isLeap y <;>
      simp [daysBeforeMonth, daysInMonth, daysInYear, hL] at hd2 ⊢ <;> omega

lemma leapDays_sub (y : Int) : leapDays y - leapDays (y - 1) = if isLeap y then 1 else 0 := by
  unfold leapDays isLeap
  by_cases h4 : y % 4 = 0 <;> by_cases h100 : y % 100 = 0 <;> by_cases h400 : y % 400 = 0 <;>
    simp [h4, h100, h400] <;> omega

lemma leapDays_mono {t u : Int} (h : t ≤ u) : leapDays t ≤ leapDays u := by
  have key : ∀ k : Nat, leapDays t ≤ leapDays (t + k) := by
    intro k
    induction k with
    | zero => simp
    | succ n ih =>
        have hstep : leapDays (t + n) ≤ leapDays (t + n + 1) := by unfold leapDays; omega
        have hcast : (t + ((n : Int) + 1)) = t + n + 1 := by ring
        push_cast
        rw [hcast]
        exact le_trans ih hstep
  obtain ⟨k, hk⟩ : ∃ k : Nat, u = t + k := ⟨(u - t).toNat, by omega⟩
  rw [hk]
  exact key k

lemma daysBeforeYear_succ (y : Int) :
    daysBeforeYear (y + 1) = daysBeforeYear y + daysInYear y := by
  unfold daysBeforeYear daysInYear
  have := leapDays_sub y
  cases hL : isLeap y <;> simp [hL] at this ⊢ <;> omega

lemma daysBeforeYear_mono {y z : Int} (h : y ≤ z) : daysBeforeYear y ≤ daysBeforeYear z := by
  unfold daysBeforeYear
  have := leapDays_mono (show y - 1 ≤ z - 1 by omega)
  omega

lemma toRD_nextDay {d : Date} (h : d.Valid) : toRD (nextDay d) = toRD d + 1 := by
  obtain ⟨y, m, day⟩ := d
  obtain ⟨hm1, hm2, hd1, hd2⟩ := h
  dsimp only at *
  unfold nextDay
  dsimp only
  split_ifs with h1 h2
  · simp only [toRD, dayOfYear]
    push_cast
    omega
  · have hday : day = daysInMonth y m := by omega
    have hstep := daysBeforeMonth_succ y hm1 (show m ≤ 11 by omega)
    simp only [toRD, dayOfYear]
    push_cast
    omega
  · have hm : m = 12 := by omega
    subst hm
    have hday : day = 31 := by have := daysInMonth_twelve y; omega
    subst hday
    have hld := leapDays_sub y
    simp only [toRD, dayOfYear, daysBeforeYear]
    cases hL : isLeap y <;>
      simp [daysBeforeMonth, hL] at hld ⊢ <;> omega

lemma toRD_prevDay {d : Date} (h : d.Valid) : toRD (prevDay d) = toRD d - 1 := by
  obtain ⟨y, m, day⟩ := d
  obtain ⟨hm1, hm2, hd1, hd2⟩ := h
  dsimp only at *
  unfold prevDay
  dsimp only
  split_ifs with h1 h2
  · simp only [toRD, dayOfYear]
    push_cast
    omega
  · have hday : day = 1 := by omega
    have hstep := daysBeforeMonth_succ y (show 1 ≤ m - 1 by omega) (show m - 1 ≤ 11 by omega)
    have hm : m - 1 + 1 = m := by omega
    rw [hm] at hstep
    simp only [toRD, dayOfYear]
    push_cast
    omega
  · have hm : m = 1 := by omega
    have hday : day = 1 := by omega
    subst hm hday
    have hld := leapDays_sub (y - 1)
    simp only [toRD, dayOfYear, daysBeforeYear]
    cases hL : isLeap (y - 1) <;>
      simp [daysBeforeMonth, hL] at hld ⊢ <;> omega

lemma toRD_addDays {d : Date} (h : d.Valid) (n : Nat) : toRD (addDays d n) = toRD d + n := by
  induction n with
  | zero => simp [addDays]
  | succ k ih =>
      have hv := addDays_valid h k
      show toRD (nextDay (addDays d k)) = _
      rw [toRD_nextDay hv, ih]
      push_cast
      ring

lemma toRD_subDays {d : Date} (h : d.Valid) (n : Nat) : toRD (subDays d n) = toRD d - n := by
  induction n with
  | zero => simp [subDays]
  | succ k ih =>
      have hv := subDays_valid h k
      show toRD (prevDay (subDays d k)) = _
      rw [toRD_prevDay hv, ih]
      push_cast
      ring

/-! ### Chronological order versus day numbers -/

/-- Strict chronological order on dates. -/
def dateLt (a b : Date) : Bool :=
  a.year < b.year ||
    (a.year == b.year &&
      (a.month < b.month || (a.month == b.month && a.day < b.day)))

lemma dateLe_eq_true_iff {a b : Date} : dateLe a b = true ↔
    a.year < b.year ∨
      (a.year = b.year ∧
        (a.month < b.month ∨ (a.month = b.month ∧ a.day ≤ b.day))) := by
  obtain ⟨ya, ma, da⟩ := a
  obtain ⟨yb, mb, db⟩ := b
  simp [dateLe]

lemma dateLt_eq_true_iff {a b : Date} : dateLt a b = true ↔
    a.year < b.year ∨
      (a.year = b.year ∧
        (a.month < b.month ∨ (a.month = b.month ∧ a.day < b.day))) := by
  obtain ⟨ya, ma, da⟩ := a
  obtain ⟨yb, mb, db⟩ := b
  simp [dateLt]

lemma toRD_lt_of_dateLt {a b : Date} (ha : a.Valid) (hb : b.Valid)
    (hlt : dateLt a b = true) : toRD a < toRD b := by
  have hA := dayOfYear_bounds ha
  have hB := dayOfYear_bounds hb
  rw [dateLt_eq_true_iff] at hlt
  rcases hlt with hy | ⟨hy, hm | ⟨hm, hd⟩⟩
  · have hs := daysBeforeYear_succ a.year
    have hmono := daysBeforeYear_mono (show a.year + 1 ≤ b.year by omega)
    unfold toRD at *
    omega
  · have hstep := daysBeforeMonth_add_le a.year (show 1 ≤ a.month from ha.1) hm hb.2.1
    have hda : a.day ≤ daysInMonth a.year a.month := ha.2.2.2
    have hdb : 1 ≤ b.day := hb.2.2.1
    unfold toRD dayOfYear at *
    rw [hy] at *
    omega
  · unfold toRD dayOfYear at *
    rw [hy, hm] at *
    omega

lemma dateLe_iff_eq_or_lt {a b : Date} : dateLe a b = true ↔ a = b ∨ dateLt a b = true := by
  obtain ⟨ya, ma, da⟩ := a
  obtain ⟨yb, mb, db⟩ := b
  rw [dateLe_eq_true_iff, dateLt_eq_true_iff]
  simp only [Date.mk.injEq]
  omega

lemma dateLt_of_not_dateLe {a b : Date} (h : ¬ dateLe a b = true) : dateLt b a = true := by
  obtain ⟨ya, ma, da⟩ := a
  obtain ⟨yb, mb, db⟩ := b
  rw [dateLe_eq_true_iff] at h
  rw [dateLt_eq_true_iff]
  dsimp only at *
  omega

lemma toRD_le_iff_dateLe {a b : Date} (ha : a.Valid) (hb : b.Valid) :
    dateLe a b = true ↔ toRD a ≤ toRD b := by
  constructor
  · intro h
    rcases dateLe_iff_eq_or_lt.mp h with h | h
    · rw [h]
    · exact le_of_lt (toRD_lt_of_dateLt ha hb h)
  · intro h
    by_contra hc
    have := toRD_lt_of_dateLt hb ha (dateLt_of_not_dateLe hc)
    omega

lemma toRD_inj {a b : Date} (ha : a.Valid) (hb : b.Valid) (h : toRD a = toRD b) : a = b := by
  have h1 := (toRD_le_iff_dateLe ha hb).mpr (le_of_eq h)
  have h2 := (toRD_le_iff_dateLe hb ha).mpr (le_of_eq h.symm)
  obtain ⟨ya, ma, da⟩ := a
  obtain ⟨yb, mb, db⟩ := b
  rw [dateLe_eq_true_iff] at h1 h2
  dsimp only at *
  simp only [Date.mk.injEq]
  omega

/-- A valid date whose day number lies in the day-number range of year `q`
belongs to year `q`, with ordinal given by the offset into the year. -/
lemma toRD_pin {e : Date} (he : e.Valid) {q : Int}
    (h1 : daysBeforeYear q < toRD e)
    (h2 : toRD e ≤ daysBeforeYear q + daysInYear q) :
    e.year = q ∧ (dayOfYear e : Int) = toRD e - daysBeforeYear q := by
  have hb := dayOfYear_bounds he
  have hrd : toRD e = daysBeforeYear e.year + (dayOfYear e : Int) := rfl
  rcases lt_trichotomy e.year q with h | h | h
  · exfalso
    have hs := daysBeforeYear_succ e.year
    have hm := daysBeforeYear_mono (show e.year + 1 ≤ q by omega)
    omega
  · exact ⟨h, by rw [h] at hrd; omega⟩
  · exfalso
    have hs := daysBeforeYear_succ q
    have hm := daysBeforeYear_mono (show q + 1 ≤ e.year by omega)
    omega

/-! ### Month arithmetic: the navigation primitives of the source -/

/-- The year/month immediately after a given year/month. -/
def monthSucc (y : Int) (m : Nat) : Int × Nat := if m = 12 then (y + 1, 1) else (y, m + 1)

/-- The year/month immediately before a given year/month. -/
def monthPred (y : Int) (m : Nat) : Int × Nat := if m = 1 then (y - 1, 12) else (y, m - 1)

lemma addDays_in_month_all {y : Int} {m day : Nat} :
    ∀ k, day + k ≤ daysInMonth y m → addDays ⟨y, m, day⟩ k = ⟨y, m, day + k⟩ := by
  intro k
  induction k with
  | zero => intro _; rfl
  | succ n ih =>
      intro h
      show nextDay (addDays ⟨y, m, day⟩ n) = _
      rw [ih (by omega)]
      unfold nextDay
      dsimp only
      rw [if_pos (by omega)]
      rfl

lemma addDays_in_month {y : Int} {m day k : Nat} (h : day + k ≤ daysInMonth y m) :
    addDays ⟨y, m, day⟩ k = ⟨y, m, day + k⟩ :=
  addDays_in_month_all k h

lemma addDays_add (d : Date) (i j : Nat) : addDays d (i + j) = addDays (addDays d i) j := by
  induction j with
  | zero => rfl
  | succ n ih =>
      show nextDay (addDays d (i + n)) = nextDay (addDays (addDays d i) n)
      rw [ih]

lemma nextDay_last {y : Int} {m : Nat} (h1 : 1 ≤ m) (h2 : m ≤ 12) :
    nextDay ⟨y, m, daysInMonth y m⟩ = ⟨(monthSucc y m).1, (monthSucc y m).2, 1⟩ := by
  unfold nextDay monthSucc
  dsimp only
  by_cases hm : m = 12
  · subst hm
    rw [if_neg (lt_irrefl _), if_neg (by omega), if_pos rfl]
  · rw [if_neg (lt_irrefl _), if_pos (by omega), if_neg hm]

lemma addDays_first_32 {y : Int} {m : Nat} (h1 : 1 ≤ m) (h2 : m ≤ 12) :
    addDays ⟨y, m, 1⟩ 32 =
      ⟨(monthSucc y m).1, (monthSucc y m).2, 33 - daysInMonth y m⟩ := by
  have hge := daysInMonth_ge y m
  have hle := daysInMonth_le y m
  have hge2 := daysInMonth_ge (monthSucc y m).1 (monthSucc y m).2
  have hsplit : 32 = (daysInMonth y m - 1) + (1 + (32 - daysInMonth y m)) := by omega
  have hinner : addDays ⟨y, m, 1⟩ (daysInMonth y m - 1) = ⟨y, m, daysInMonth y m⟩ := by
    rw [addDays_in_month (show 1 + (daysInMonth y m - 1) ≤ daysInMonth y m by omega)]
    simp only [Date.mk.injEq, true_and]
    omega
  have houter : addDays ⟨(monthSucc y m).1, (monthSucc y m).2, 1⟩ (32 - daysInMonth y m) =
      ⟨(monthSucc y m).1, (monthSucc y m).2, 33 - daysInMonth y m⟩ := by
    rw [addDays_in_month
      (show 1 + (32 - daysInMonth y m) ≤
        daysInMonth (monthSucc y m).1 (monthSucc y m).2 by omega)]
    simp only [Date.mk.injEq, true_and]
    omega
  have hstep : addDays ⟨y, m, daysInMonth y m⟩ 1 = nextDay ⟨y, m, daysInMonth y m⟩ := rfl
  rw [hsplit, addDays_add, hinner,
    addDays_add ⟨y, m, daysInMonth y m⟩ 1 (32 - daysInMonth y m),
    hstep, nextDay_last h1 h2, houter]

lemma monthSucc_bounds {y : Int} {m : Nat} (h1 : 1 ≤ m) (h2 : m ≤ 12) :
    1 ≤ (monthSucc y m).2 ∧ (monthSucc y m).2 ≤ 12 := by
  unfold monthSucc
  split_ifs <;> simp <;> omega

lemma monthPred_bounds {y : Int} {m : Nat} (h1 : 1 ≤ m) (h2 : m ≤ 12) :
    1 ≤ (monthPred y m).2 ∧ (monthPred y m).2 ≤ 12 := by
  unfold monthPred
  split_ifs <;> simp <;> omega

lemma monthPred_monthSucc {y : Int} {m : Nat} (h1 : 1 ≤ m) (h2 : m ≤ 12) :
    monthPred (monthSucc y m).1 (monthSucc y m).2 = (y, m) := by
  unfold monthSucc monthPred
  by_cases hm : m = 12 <;> simp [hm, Prod.ext_iff] <;> omega

lemma monthSucc_monthPred {y : Int} {m : Nat} (h1 : 1 ≤ m) (h2 : m ≤ 12) :
    monthSucc (monthPred y m).1 (monthPred y m).2 = (y, m) := by
  unfold monthSucc monthPred
  by_cases hm : m = 1
  · simp [hm, Prod.ext_iff]
  · have h12 : ¬ (m - 1 = 12) := by omega
    simp [hm, h12, Prod.ext_iff]
    omega

lemma prevDay_first {y : Int} {m : Nat} (h1 : 1 ≤ m) :
    prevDay ⟨y, m, 1⟩ =
      ⟨(monthPred y m).1, (monthPred y m).2,
        daysInMonth (monthPred y m).1 (monthPred y m).2⟩ := by
  unfold prevDay monthPred
  dsimp only
  by_cases hm : m = 1
  · subst hm
    rw [if_neg (lt_irrefl _), if_neg (by omega), if_pos rfl]
    simp [daysInMonth_twelve]
  · rw [if_neg (lt_irrefl _), if_pos (by omega), if_neg hm]

/-! ### The application state machine (`CalendarApp`, `Message`, `update`) -/

/-- The `iced` messages of the application. -/
inductive Message where
  | PreviousMonth : Message
  | NextMonth : Message
  | DateSelected : Date → Message
  | BackToCalendar : Message
deriving DecidableEq, Repr

/-- The application state: the displayed month anchor and the optional
selected date (a present selection means the detail view is shown). -/
structure CalendarApp where
  current_date : Date
  selected_date : Option Date
deriving DecidableEq, Repr

/-- Model of `CalendarApp::new`: `Local::now().date_naive()` is modelled by
the `today` parameter; the selection starts empty.  The source stores today
as-is, with no normalization of the day-of-month field. -/
def CalendarApp.new (today : Date) : CalendarApp := ⟨today, none⟩

/-- Model of `CalendarApp::update` (the four message arms, in source order). -/
def update (s : CalendarApp) (msg : Message) : CalendarApp :=
  match msg with
  | .PreviousMonth =>
      { s with current_date := withDay1 (subDays (withDay1 s.current_date) 1) }
  | .NextMonth =>
      { s with current_date := withDay1 (addDays (withDay1 s.current_date) 32) }
  | .DateSelected date => { s with selected_date := some date }
  | .BackToCalendar => { s with selected_date := none }

/-- States reachable from startup on a given `today` by any event sequence. -/
inductive Reachable (today : Date) : CalendarApp → Prop where
  | init : Reachable today (CalendarApp.new today)
  | step : ∀ s msg, Reachable today s → Reachable today (update s msg)

lemma update_next_current {s : CalendarApp} (h : s.current_date.Valid) :
    (update s Message.NextMonth).current_date =
      ⟨(monthSucc s.current_date.year s.current_date.month).1,
        (monthSucc s.current_date.year s.current_date.month).2, 1⟩ := by
  show withDay1 (addDays (withDay1 s.current_date) 32) = _
  have hw : withDay1 s.current_date = ⟨s.current_date.year, s.current_date.month, 1⟩ := rfl
  rw [hw, addDays_first_32 h.1 h.2.1]
  rfl

lemma update_prev_current {s : CalendarApp} (h : s.current_date.Valid) :
    (update s Message.PreviousMonth).current_date =
      ⟨(monthPred s.current_date.year s.current_date.month).1,
        (monthPred s.current_date.year s.current_date.month).2, 1⟩ := by
  show withDay1 (subDays (withDay1 s.current_date) 1) = _
  have hw : withDay1 s.current_date = ⟨s.current_date.year, s.current_date.month, 1⟩ := rfl
  have hs : subDays (⟨s.current_date.year, s.current_date.month, 1⟩ : Date) 1 =
      prevDay ⟨s.current_date.year, s.current_date.month, 1⟩ := rfl
  rw [hw, hs, prevDay_first h.1]
  rfl

/-! ### The calendar grid of `calendar_view` -/

/-- One day cell of the month grid: the date on the button and whether the
button is styled as part of the displayed month (`Primary` vs `Secondary`). -/
structure GridCell where
  date : Date
  inCurrentMonth : Bool
deriving DecidableEq, Repr

/-- Model of line 105: `let first_day = self.current_date.with_day(1).unwrap()`. -/
def firstDayOf (current : Date) : Date := withDay1 current

/-- Model of lines 106-109:
`(self.current_date + Duration::days(32)).with_day(1).unwrap() - Duration::days(1)`. -/
def lastDayOf (current : Date) : Date := prevDay (withDay1 (addDays current 32))

/-- Model of lines 111-112: back up from the first of the month by its
Sunday-based weekday index. -/
def gridStart (current : Date) : Date :=
  subDays (firstDayOf current) (numDaysFromSunday (firstDayOf current))

/-- One rendered week row: seven consecutive day cells starting at `day`. -/
def weekRow (day : Date) (cm : Nat) : List GridCell :=
  (List.range 7).map (fun i => ⟨addDays day i, (addDays day i).month == cm⟩)

/-- The `while day <= last_day` loop of `calendar_view`, with explicit fuel;
for valid month anchors the loop condition fails within six iterations (see
the grid-size bounds below), so fuel 6 reproduces the unbounded source loop. -/
def gridLoop : Nat → Date → Date → Nat → List GridCell
  | 0, _, _, _ => []
  | fuel + 1, day, last, cm =>
    if dateLe day last then weekRow day cm ++ gridLoop fuel (addDays day 7) last cm
    else []

/-- The full ordered list of day cells rendered by `calendar_view`. -/
def buildGrid (current : Date) : List GridCell :=
  gridLoop 6 (gridStart current) (lastDayOf current) current.month

/-- Number of week rows the source loop emits, in day-number terms. -/
def numWeeks (day last : Date) : Nat := ((toRD last + 1 - toRD day).toNat + 6) / 7

lemma gridLoop_eq : ∀ (fuel : Nat) (day last : Date) (cm : Nat), day.Valid → last.Valid →
    toRD last < toRD day + 7 * fuel →
    gridLoop fuel day last cm =
      (List.range (7 * numWeeks day last)).map
        (fun i => ⟨addDays day i, (addDays day i).month == cm⟩) := by
  intro fuel
  induction fuel with
  | zero =>
      intro day last cm hd hl hb
      have hw : numWeeks day last = 0 := by unfold numWeeks; omega
      rw [hw]
      simp [gridLoop]
  | succ n ih =>
      intro day last cm hd hl hb
      obtain ⟨W, hWdef⟩ : ∃ W, numWeeks (addDays day 7) last = W := ⟨_, rfl⟩
      have hd7 : (addDays day 7).Valid := addDays_valid hd 7
      have hrd7 : toRD (addDays day 7) = toRD day + 7 := toRD_addDays hd 7
      by_cases hcond : dateLe day last = true
      · have hle : toRD day ≤ toRD last := (toRD_le_iff_dateLe hd hl).mp hcond
        have hW : numWeeks day last = W + 1 := by
          rw [← hWdef]
          unfold numWeeks
          rw [hrd7]
          omega
        have hstep : gridLoop (n + 1) day last cm =
            weekRow day cm ++ gridLoop n (addDays day 7) last cm := by
          show (if dateLe day last then weekRow day cm ++ gridLoop n (addDays day 7) last cm
            else []) = _
          rw [if_pos hcond]
        rw [hW, hstep, ih (addDays day 7) last cm hd7 hl (by omega), hWdef]
        have h7 : 7 * (W + 1) = 7 + 7 * W := by ring
        rw [h7, List.range_add 7 (7 * W),
          List.map_append (fun i => (⟨addDays day i, (addDays day i).month == cm⟩ : GridCell))
            (List.range 7) (List.map (fun x => 7 + x) (List.range (7 * W)))]
        refine congrArg₂ (fun x1 x2 => x1 ++ x2) rfl ?_
        rw [List.map_map]
        apply List.map_congr_left
        intro i hi
        have hcomp : addDays day (7 + i) = addDays (addDays day 7) i := addDays_add day 7 i
        simp only [Function.comp]
        rw [hcomp]
      · have hlt : toRD last < toRD day :=
          toRD_lt_of_dateLt hl hd (dateLt_of_not_dateLe hcond)
        have hw : numWeeks day last = 0 := by unfold numWeeks; omega
        have hstep : gridLoop (n + 1) day last cm = [] := by
          show (if dateLe day last then weekRow day cm ++ gridLoop n (addDays day 7) last cm
            else []) = _
          rw [if_neg hcond]
        rw [hw, hstep]
        simp

lemma day1_eta {a : Date} (h1 : a.day = 1) : a = ⟨a.year, a.month, 1⟩ := by
  obtain ⟨y, m, day⟩ := a
  dsimp only at h1
  rw [h1]

lemma firstDayOf_day1 {a : Date} (h1 : a.day = 1) : firstDayOf a = a := by
  show withDay1 a = a
  unfold withDay1
  exact (day1_eta h1).symm

lemma toRD_mk_day (y : Int) (m d1 d2 : Nat) :
    toRD ⟨y, m, d2⟩ - toRD ⟨y, m, d1⟩ = (d2 : Int) - d1 := by
  simp only [toRD, dayOfYear]
  push_cast
  ring

lemma lastDayOf_day1 {y : Int} {m : Nat} (h1 : 1 ≤ m) (h2 : m ≤ 12) :
    lastDayOf ⟨y, m, 1⟩ = ⟨y, m, daysInMonth y m⟩ := by
  unfold lastDayOf
  rw [addDays_first_32 h1 h2]
  have hw : withDay1 ⟨(monthSucc y m).1, (monthSucc y m).2, 33 - daysInMonth y m⟩ =
      ⟨(monthSucc y m).1, (monthSucc y m).2, 1⟩ := rfl
  rw [hw, prevDay_first (monthSucc_bounds h1 h2).1, monthPred_monthSucc h1 h2]

/-- Core facts about the grid built for a day-1 month anchor. -/
lemma grid_anchor_facts {a : Date} (hv : a.Valid) (h1 : a.day = 1) :
    (gridStart a).Valid ∧ (lastDayOf a).Valid ∧
    toRD (gridStart a) = toRD a - numDaysFromSunday a ∧
    toRD (lastDayOf a) = toRD a + daysInMonth a.year a.month - 1 ∧
    numDaysFromSunday a ≤ 6 := by
  have hf : firstDayOf a = a := firstDayOf_day1 h1
  have hgs : gridStart a = subDays a (numDaysFromSunday a) := by
    unfold gridStart
    rw [hf]
  have hlast : lastDayOf a = ⟨a.year, a.month, daysInMonth a.year a.month⟩ := by
    conv_lhs => rw [day1_eta h1]
    exact lastDayOf_day1 hv.1 hv.2.1
  have hdiff := toRD_mk_day a.year a.month 1 (daysInMonth a.year a.month)
  have htoa : toRD a = toRD ⟨a.year, a.month, 1⟩ := congrArg toRD (day1_eta h1)
  have hge := daysInMonth_ge a.year a.month
  refine ⟨?_, ?_, ?_, ?_, ?_⟩
  · rw [hgs]
    exact subDays_valid hv _
  · rw [hlast]
    refine ⟨hv.1, hv.2.1, ?_, le_refl _⟩
    show 1 ≤ daysInMonth a.year a.month
    omega
  · rw [hgs, toRD_subDays hv]
  · rw [hlast]
    omega
  · unfold numDaysFromSunday
    omega

/-- The grid for a day-1 anchor is the week-count-long run of consecutive
days from the Sunday-aligned grid start. -/
lemma buildGrid_content {a : Date} (hv : a.Valid) (h1 : a.day = 1) :
    buildGrid a =
      (List.range (7 * numWeeks (gridStart a) (lastDayOf a))).map
        (fun i => ⟨addDays (gridStart a) i, (addDays (gridStart a) i).month == a.month⟩) := by
  obtain ⟨hgsv, hlv, hgsrd, hlrd, hw6⟩ := grid_anchor_facts hv h1
  have hLle := daysInMonth_le a.year a.month
  apply gridLoop_eq 6 _ _ _ hgsv hlv
  push_cast
  omega

lemma numWeeks_anchor {a : Date} (hv : a.Valid) (h1 : a.day = 1) :
    numWeeks (gridStart a) (lastDayOf a) =
      (daysInMonth a.year a.month + numDaysFromSunday a + 6) / 7 := by
  obtain ⟨_, _, hgsrd, hlrd, hw6⟩ := grid_anchor_facts hv h1
  unfold numWeeks
  rw [hgsrd, hlrd]
  omega

lemma buildGrid_length {a : Date} (hv : a.Valid) (h1 : a.day = 1) :
    (buildGrid a).length = 7 * numWeeks (gridStart a) (lastDayOf a) := by
  rw [buildGrid_content hv h1, List.length_map, List.length_range]

lemma month_pin {x : Date} {y : Int} {m L : Nat} (h1 : dateLe ⟨y, m, 1⟩ x = true)
    (h2 : dateLe x ⟨y, m, L⟩ = true) : x.year = y ∧ x.month = m := by
  rw [dateLe_eq_true_iff] at h1 h2
  dsimp only at h1 h2
  omega

/-! ### The zodiac function of `detail_view` (`get_zodiac_sign`) -/

/-- Model of `get_zodiac_sign`: the `match (month, day)` arm chain of the
source, in source order (an if-chain is equivalent because the arms are
tried top to bottom). -/
def get_zodiac_sign (d : Date) : String :=
  let month := d.month
  let day := d.day
  if (month = 1 ∧ 1 ≤ day ∧ day ≤ 19) ∨ (month = 12 ∧ 22 ≤ day ∧ day ≤ 31) then "Capricorn"
  else if (month = 1 ∧ 20 ≤ day ∧ day ≤ 31) ∨ (month = 2 ∧ 1 ≤ day ∧ day ≤ 18) then "Aquarius"
  else if (month = 2 ∧ 19 ≤ day ∧ day ≤ 29) ∨ (month = 3 ∧ 1 ≤ day ∧ day ≤ 20) then "Pisces"
  else if (month = 3 ∧ 21 ≤ day ∧ day ≤ 31) ∨ (month = 4 ∧ 1 ≤ day ∧ day ≤ 19) then "Aries"
  else if (month = 4 ∧ 20 ≤ day ∧ day ≤ 30) ∨ (month = 5 ∧ 1 ≤ day ∧ day ≤ 20) then "Taurus"
  else if (month = 5 ∧ 21 ≤ day ∧ day ≤ 31) ∨ (month = 6 ∧ 1 ≤ day ∧ day ≤ 20) then "Gemini"
  else if (month = 6 ∧ 21 ≤ day ∧ day ≤ 30) ∨ (month = 7 ∧ 1 ≤ day ∧ day ≤ 22) then "Cancer"
  else if (month = 7 ∧ 23 ≤ day ∧ day ≤ 31) ∨ (month = 8 ∧ 1 ≤ day ∧ day ≤ 22) then "Leo"
  else if (month = 8 ∧ 23 ≤ day ∧ day ≤ 31) ∨ (month = 9 ∧ 1 ≤ day ∧ day ≤ 22) then "Virgo"
  else if (month = 9 ∧ 23 ≤ day ∧ day ≤ 30) ∨ (month = 10 ∧ 1 ≤ day ∧ day ≤ 22) then "Libra"
  else if (month = 10 ∧ 23 ≤ day ∧ day ≤ 31) ∨ (month = 11 ∧ 1 ≤ day ∧ day ≤ 21) then "Scorpio"
  else if (month = 11 ∧ 22 ≤ day ∧ day ≤ 30) ∨ (month = 12 ∧ 1 ≤ day ∧ day ≤ 21) then "Sagittarius"
  else "Unknown"

/-- One row of the zodiac boundary table of the specification. -/
structure ZodiacRange where
  sign : String
  startMonth : Nat
  startDay : Nat
  endMonth : Nat
  endDay : Nat
deriving DecidableEq, Repr

/-- The fixed boundary table (sign, inclusive start, inclusive end). -/
def zodiacTable : List ZodiacRange :=
  [⟨"Capricorn", 12, 22, 1, 19⟩, ⟨"Aquarius", 1, 20, 2, 18⟩, ⟨"Pisces", 2, 19, 3, 20⟩,
   ⟨"Aries", 3, 21, 4, 19⟩, ⟨"Taurus", 4, 20, 5, 20⟩, ⟨"Gemini", 5, 21, 6, 20⟩,
   ⟨"Cancer", 6, 21, 7, 22⟩, ⟨"Leo", 7, 23, 8, 22⟩, ⟨"Virgo", 8, 23, 9, 22⟩,
   ⟨"Libra", 9, 23, 10, 22⟩, ⟨"Scorpio", 10, 23, 11, 21⟩, ⟨"Sagittarius", 11, 22, 12, 21⟩]

/-- Month/day pair at or after the given boundary. -/
def mdGe (m d bm bd : Nat) : Bool := bm < m || (bm == m && bd ≤ d)

/-- Month/day pair at or before the given boundary. -/
def mdLe (m d bm bd : Nat) : Bool := m < bm || (m == bm && d ≤ bd)

/-- Inclusive containment of a month/day pair in a table range; a range whose
start month exceeds its end month wraps around the year boundary. -/
def inZodiacRange (r : ZodiacRange) (m d : Nat) : Bool :=
  if r.startMonth ≤ r.endMonth then
    mdGe m d r.startMonth r.startDay && mdLe m d r.endMonth r.endDay
  else
    mdGe m d r.startMonth r.startDay || mdLe m d r.endMonth r.endDay

/-- Largest possible length of each month over all years (year 4 is leap). -/
def monthMaxDays (m : Nat) : Nat := daysInMonth 4 m

lemma daysInMonth_le_max (y : Int) (m : Nat) : daysInMonth y m ≤ monthMaxDays m := by
  unfold monthMaxDays
  by_cases hm : m = 2
  · subst hm
    have h29 : daysInMonth 4 2 = 29 := by decide
    rw [h29]
    unfold daysInMonth
    rw [if_pos rfl]
    cases isLeap y <;> simp
  · unfold daysInMonth
    rw [if_neg hm, if_neg hm]

lemma zodiac_check : ∀ m, m < 13 → ∀ d, d < 32 →
    (1 ≤ m ∧ 1 ≤ d ∧ d ≤ monthMaxDays m) →
    (get_zodiac_sign ⟨1, m, d⟩ ≠ "Unknown" ∧
      ∃ r ∈ zodiacTable, inZodiacRange r m d = true ∧ get_zodiac_sign ⟨1, m, d⟩ = r.sign ∧
        ∀ r2 ∈ zodiacTable, inZodiacRange r2 m d = true → r2 = r) := by decide

/-! ### ISO-8601 week numbers for `detail_view` -/

/-- ISO weekday, Monday = 1 .. Sunday = 7 (Rata Die day 1 is a Monday). -/
def isoWeekday (d : Date) : Nat := ((toRD d - 1) % 7).toNat + 1

/-- Modelled from the spec: number of ISO weeks in year `y`; a year has 53
weeks exactly when it starts or ends on a Thursday, which is the week-1 /
first-Thursday rule restated at the year edges. -/
def weeksInIsoYear (y : Int) : Nat :=
  if isoWeekday ⟨y, 1, 1⟩ = 4 ∨ isoWeekday ⟨y, 12, 31⟩ = 4 then 53 else 52

/-- Modelled from the spec: `chrono::NaiveDate::iso_week().week()` is library
code outside this repository; per its documentation and the spec it is the
ISO-8601 week number (weeks start Monday; week 1 holds the year's first
Thursday).  This is the standard algorithmic form: a raw week index from the
ordinal and the weekday, clamped into the adjacent ISO year at the edges. -/
def iso_week (d : Date) : Nat :=
  if ((dayOfYear d : Int) - (isoWeekday d : Int) + 10) / 7 < 1 then
    weeksInIsoYear (d.year - 1)
  else if (weeksInIsoYear d.year : Int) < ((dayOfYear d : Int) - (isoWeekday d : Int) + 10) / 7 then
    1
  else (((dayOfYear d : Int) - (isoWeekday d : Int) + 10) / 7).toNat

/-- The Thursday of the Monday-based week containing `d`. -/
def weekThursday (d : Date) : Date :=
  if isoWeekday d ≤ 4 then addDays d (4 - isoWeekday d) else subDays d (isoWeekday d - 4)

/-- ISO week number read off the specification text directly: week 1 is the
week containing the year's first Thursday, weeks run Monday to Sunday, so
the week number of `d` counts the Thursdays up to and including the Thursday
of the week of `d` in that Thursday's year. -/
def isoWeekSpec (d : Date) : Nat := (dayOfYear (weekThursday d) + 6) / 7

example : iso_week ⟨2023, 12, 31⟩ = 52 := by decide
example : iso_week ⟨2024, 2, 29⟩ = 9 := by decide
example : iso_week ⟨2025, 1, 1⟩ = 1 := by decide
example : iso_week ⟨2024, 12, 30⟩ = 1 := by decide
example : iso_week ⟨2021, 1, 1⟩ = 53 := by decide
example : iso_week ⟨2020, 12, 31⟩ = 53 := by decide
example : iso_week ⟨2016, 1, 1⟩ = 53 := by decide
example : iso_week ⟨2017, 1, 1⟩ = 52 := by decide
example : isoWeekSpec ⟨2023, 12, 31⟩ = 52 := by decide
example : isoWeekSpec ⟨2024, 2, 29⟩ = 9 := by decide
example : isoWeekSpec ⟨2021, 1, 1⟩ = 53 := by decide
example : isoWeekSpec ⟨2024, 12, 30⟩ = 1 := by decide

lemma daysInYear_bounds (y : Int) : 365 ≤ daysInYear y ∧ daysInYear y ≤ 366 := by
  unfold daysInYear
  split_ifs <;> omega

lemma dayOfYear_jan1 (y : Int) : dayOfYear ⟨y, 1, 1⟩ = 1 := rfl

lemma dayOfYear_dec31 (y : Int) : dayOfYear ⟨y, 12, 31⟩ = daysInYear y := by
  cases hL : isLeap y <;> simp [dayOfYear, daysBeforeMonth, daysInYear, hL]

lemma toRD_jan1 (y : Int) : toRD ⟨y, 1, 1⟩ = daysBeforeYear y + 1 := by
  show daysBeforeYear y + (dayOfYear ⟨y, 1, 1⟩ : Int) = _
  rw [dayOfYear_jan1]
  push_cast
  ring

lemma toRD_dec31 (y : Int) : toRD ⟨y, 12, 31⟩ = daysBeforeYear y + daysInYear y := by
  show daysBeforeYear y + (dayOfYear ⟨y, 12, 31⟩ : Int) = _
  rw [dayOfYear_dec31]

/-- Characterization of the 53-week condition in day-number arithmetic. -/
lemma weeksInIsoYear_char (y : Int) :
    (weeksInIsoYear y = 53 ↔
      (daysBeforeYear y % 7 = 3 ∨ (daysBeforeYear y + daysInYear y - 1) % 7 = 3)) ∧
    (weeksInIsoYear y = 52 ∨ weeksInIsoYear y = 53) := by
  unfold weeksInIsoYear isoWeekday
  rw [toRD_jan1, toRD_dec31]
  split_ifs with hc <;> constructor
  · constructor
    · intro _
      omega
    · intro _
      rfl
  · right; rfl
  · constructor
    · intro hcc
      exact absurd hcc (by omega)
    · intro hmods
      exact absurd hmods (by omega)
  · left; rfl

lemma isoWeekday_bounds (d : Date) : 1 ≤ isoWeekday d ∧ isoWeekday d ≤ 7 := by
  unfold isoWeekday
  omega

lemma isoWeekday_int (d : Date) : (isoWeekday d : Int) = (toRD d - 1) % 7 + 1 := by
  unfold isoWeekday
  omega

lemma weekThursday_valid {d : Date} (h : d.Valid) : (weekThursday d).Valid := by
  unfold weekThursday
  split_ifs
  · exact addDays_valid h _
  · exact subDays_valid h _

lemma toRD_weekThursday {d : Date} (h : d.Valid) :
    toRD (weekThursday d) = toRD d + 4 - isoWeekday d := by
  have hb := isoWeekday_bounds d
  unfold weekThursday
  split_ifs with hle
  · rw [toRD_addDays h]
    omega
  · rw [toRD_subDays h]
    omega

/-- The algorithmic ISO week number agrees with the first-Thursday
specification on every valid date. -/
lemma iso_week_eq_spec {d : Date} (h : d.Valid) : iso_week d = isoWeekSpec d := by
  have hobnd := dayOfYear_bounds h
  have hTv := weekThursday_valid h
  have hTrd := toRD_weekThursday h
  have hTbnd := dayOfYear_bounds hTv
  have hwdb := isoWeekday_bounds d
  have hwdm := isoWeekday_int d
  have hdrd : toRD d = daysBeforeYear d.year + (dayOfYear d : Int) := rfl
  have hDy := daysInYear_bounds d.year
  have hsucc := daysBeforeYear_succ d.year
  have hThu : (toRD (weekThursday d) - 1) % 7 = 3 := by omega
  by_cases hc1 : 1 ≤ (dayOfYear d : Int) + 4 - (isoWeekday d : Int)
  · by_cases hc2 :
        (dayOfYear d : Int) + 4 - (isoWeekday d : Int) ≤ (daysInYear d.year : Int)
    · -- the Thursday lies in the same year
      obtain ⟨hTy, hTdoy⟩ := toRD_pin hTv
        (show daysBeforeYear d.year < toRD (weekThursday d) by omega)
        (show toRD (weekThursday d) ≤ daysBeforeYear d.year + daysInYear d.year by omega)
      have hTrd2 : toRD (weekThursday d) =
          daysBeforeYear d.year + (dayOfYear (weekThursday d) : Int) := by
        conv_lhs => rw [show toRD (weekThursday d) =
          daysBeforeYear (weekThursday d).year + (dayOfYear (weekThursday d) : Int) from rfl]
        rw [hTy]
      have hchar := weeksInIsoYear_char d.year
      unfold iso_week isoWeekSpec
      split_ifs with g1 g2
      · exfalso
        omega
      · exfalso
        omega
      · omega
    · -- the Thursday lies in the next year
      have hDy1 := daysInYear_bounds (d.year + 1)
      obtain ⟨hTy, hTdoy⟩ := toRD_pin hTv
        (show daysBeforeYear (d.year + 1) < toRD (weekThursday d) by omega)
        (show toRD (weekThursday d) ≤
          daysBeforeYear (d.year + 1) + daysInYear (d.year + 1) by omega)
      have hTrd2 : toRD (weekThursday d) =
          daysBeforeYear (d.year + 1) + (dayOfYear (weekThursday d) : Int) := by
        conv_lhs => rw [show toRD (weekThursday d) =
          daysBeforeYear (weekThursday d).year + (dayOfYear (weekThursday d) : Int) from rfl]
        rw [hTy]
      have hchar := weeksInIsoYear_char d.year
      unfold iso_week isoWeekSpec
      split_ifs with g1 g2
      · exfalso
        omega
      · omega
      · exfalso
        omega
  · -- the Thursday lies in the previous year
    have hDy0 := daysInYear_bounds (d.year - 1)
    have hsucc0 := daysBeforeYear_succ (d.year - 1)
    have hy0 : d.year - 1 + 1 = d.year := by ring
    rw [hy0] at hsucc0
    obtain ⟨hTy, hTdoy⟩ := toRD_pin hTv
      (show daysBeforeYear (d.year - 1) < toRD (weekThursday d) by omega)
      (show toRD (weekThursday d) ≤
        daysBeforeYear (d.year - 1) + daysInYear (d.year - 1) by omega)
    have hTrd2 : toRD (weekThursday d) =
        daysBeforeYear (d.year - 1) + (dayOfYear (weekThursday d) : Int) := by
      conv_lhs => rw [show toRD (weekThursday d) =
        daysBeforeYear (weekThursday d).year + (dayOfYear (weekThursday d) : Int) from rfl]
      rw [hTy]
    have hchar0 := weeksInIsoYear_char (d.year - 1)
    unfold iso_week isoWeekSpec
    split_ifs with g1 g2
    · omega
    · exfalso
      omega
    · exfalso
      omega

/-! ### The facts displayed by `detail_view` -/

/-- The derived facts shown in the detail view. -/
structure DayFacts where
  date : Date
  ordinal : Nat
  weekNumber : Nat
  zodiac : String
deriving DecidableEq, Repr

/-- Model of the body of `detail_view` (lines 145-148): the date, its
`ordinal()`, its `iso_week().week()` (see `iso_week`) and its zodiac sign. -/
def computeFacts (d : Date) : DayFacts :=
  ⟨d, dayOfYear d, iso_week d, get_zodiac_sign d⟩

lemma withDay_one (e : Date) : withDay e 1 = some (withDay1 e) := by
  unfold withDay withDay1
  rw [if_pos]
  have := daysInMonth_ge e.year e.month
  omega

lemma lastDayOf_anchor {a : Date} (hv : a.Valid) (h1 : a.day = 1) :
    lastDayOf a = ⟨a.year, a.month, daysInMonth a.year a.month⟩ := by
  conv_lhs => rw [day1_eta h1]
  exact lastDayOf_day1 hv.1 hv.2.1

lemma withDay1_eq_self_iff (e : Date) : withDay1 e = e ↔ e.day = 1 := by
  obtain ⟨y, m, day⟩ := e
  unfold withDay1
  simp only [Date.mk.injEq, true_and]
  omega

/-- The month anchor produced by the NextMonth arm of `update`
(definitionally the same expression). -/
def nextAnchor (c : Date) : Date := withDay1 (addDays (withDay1 c) 32)

/-- The month anchor produced by the PreviousMonth arm of `update`
(definitionally the same expression). -/
def prevAnchor (c : Date) : Date := withDay1 (subDays (withDay1 c) 1)

lemma mk_day1_valid {y : Int} {m : Nat} (h1 : 1 ≤ m) (h2 : m ≤ 12) :
    (⟨y, m, 1⟩ : Date).Valid := by
  refine ⟨h1, h2, le_refl _, ?_⟩
  show 1 ≤ daysInMonth y m
  have := daysInMonth_ge y m
  omega

lemma nextAnchor_eq {c : Date} (h : c.Valid) :
    nextAnchor c = ⟨(monthSucc c.year c.month).1, (monthSucc c.year c.month).2, 1⟩ := by
  unfold nextAnchor
  have hw : withDay1 c = ⟨c.year, c.month, 1⟩ := rfl
  rw [hw, addDays_first_32 h.1 h.2.1]
  rfl

lemma prevAnchor_eq {c : Date} (h : c.Valid) :
    prevAnchor c = ⟨(monthPred c.year c.month).1, (monthPred c.year c.month).2, 1⟩ := by
  unfold prevAnchor
  have hw : withDay1 c = ⟨c.year, c.month, 1⟩ := rfl
  have hs : subDays (⟨c.year, c.month, 1⟩ : Date) 1 = prevDay ⟨c.year, c.month, 1⟩ := rfl
  rw [hw, hs, prevDay_first h.1]
  rfl

lemma prev_next_anchor {c : Date} (h : c.Valid) : prevAnchor (nextAnchor c) = withDay1 c := by
  rw [nextAnchor_eq h]
  have hb := monthSucc_bounds (y := c.year) h.1 h.2.1
  rw [prevAnchor_eq (mk_day1_valid hb.1 hb.2)]
  show (⟨(monthPred (monthSucc c.year c.month).1 (monthSucc c.year c.month).2).1,
    (monthPred (monthSucc c.year c.month).1 (monthSucc c.year c.month).2).2, 1⟩ : Date) = _
  rw [monthPred_monthSucc h.1 h.2.1]
  rfl

lemma next_prev_anchor {c : Date} (h : c.Valid) : nextAnchor (prevAnchor c) = withDay1 c := by
  rw [prevAnchor_eq h]
  have hb := monthPred_bounds (y := c.year) h.1 h.2.1
  rw [nextAnchor_eq (mk_day1_valid hb.1 hb.2)]
  show (⟨(monthSucc (monthPred c.year c.month).1 (monthPred c.year c.month).2).1,
    (monthSucc (monthPred c.year c.month).1 (monthPred c.year c.month).2).2, 1⟩ : Date) = _
  rw [monthSucc_monthPred h.1 h.2.1]
  rfl

/-! ### Claim theorems -/

/-- Claim C1, amended: the initial state stores today's local date as-is
(selection absent), with no normalization to day 1, so `day = 1` can fail in
the initial state; every reachable state has `current_date` equal to `today`
or normalized to day 1, because both month-navigation transitions always
produce day-1 anchors and the selection transitions leave the anchor
unchanged. -/
theorem C1_anchor_invariant :
    (∀ today : Date, CalendarApp.new today = ⟨today, none⟩) ∧
    (∀ today s, Reachable today s → s.current_date = today ∨ s.current_date.day = 1) ∧
    (∀ s : CalendarApp, (update s Message.PreviousMonth).current_date.day = 1 ∧
      (update s Message.NextMonth).current_date.day = 1) ∧
    (∀ (s : CalendarApp) (d : Date),
      (update s (Message.DateSelected d)).current_date = s.current_date ∧
      (update s Message.BackToCalendar).current_date = s.current_date) := by
  refine ⟨fun today => rfl, ?_, fun s => ⟨rfl, rfl⟩, fun s d => ⟨rfl, rfl⟩⟩
  intro today s h
  induction h with
  | init => exact Or.inl rfl
  | step s' msg hr ih =>
      cases msg with
      | PreviousMonth => exact Or.inr rfl
      | NextMonth => exact Or.inr rfl
      | DateSelected d => exact ih
      | BackToCalendar => exact ih

/-- Witness for C1 at a concrete startup date. -/
theorem C1_anchor_invariant_witness :
    (CalendarApp.new ⟨2024, 2, 15⟩).current_date = ⟨2024, 2, 15⟩ ∨
      (CalendarApp.new ⟨2024, 2, 15⟩).current_date.day = 1 :=
  C1_anchor_invariant.2.1 ⟨2024, 2, 15⟩ (CalendarApp.new ⟨2024, 2, 15⟩) Reachable.init

/-- Counterexample for C1 as stated: when today is 2024-02-15, the initial
state is reachable, its anchor day is not 1, and the anchor is not the first
of the month of today. -/
theorem C1_counterexample :
    Reachable ⟨2024, 2, 15⟩ (CalendarApp.new ⟨2024, 2, 15⟩) ∧
    (CalendarApp.new ⟨2024, 2, 15⟩).current_date.day ≠ 1 ∧
    (CalendarApp.new ⟨2024, 2, 15⟩).current_date ≠ withDay1 ⟨2024, 2, 15⟩ :=
  ⟨Reachable.init, by decide, by decide⟩

/-- Claim C2, amended: from any state with a valid `current_date`, NextMonth
then PreviousMonth yields the first of the original anchor's month
(`withDay1`), which equals the original anchor exactly when its day is 1. -/
theorem C2_next_prev_round_trip : ∀ s : CalendarApp, s.current_date.Valid →
    ((update (update s Message.NextMonth) Message.PreviousMonth).current_date =
      withDay1 s.current_date ∧
     (withDay1 s.current_date = s.current_date ↔ s.current_date.day = 1)) := by
  intro s hv
  refine ⟨?_, withDay1_eq_self_iff s.current_date⟩
  have hr : (update (update s Message.NextMonth) Message.PreviousMonth).current_date =
      prevAnchor (nextAnchor s.current_date) := rfl
  rw [hr, prev_next_anchor hv]

/-- Witness for C2 at a concrete mid-month state. -/
theorem C2_next_prev_round_trip_witness :
    (update (update ⟨⟨2024, 2, 15⟩, none⟩ Message.NextMonth)
        Message.PreviousMonth).current_date =
      withDay1 (⟨⟨2024, 2, 15⟩, none⟩ : CalendarApp).current_date ∧
    (withDay1 (⟨⟨2024, 2, 15⟩, none⟩ : CalendarApp).current_date =
        (⟨⟨2024, 2, 15⟩, none⟩ : CalendarApp).current_date ↔
      (⟨⟨2024, 2, 15⟩, none⟩ : CalendarApp).current_date.day = 1) :=
  C2_next_prev_round_trip ⟨⟨2024, 2, 15⟩, none⟩ (by decide)

set_option maxRecDepth 4000 in
/-- Counterexample for C2 as stated: from the state displaying 2024-02-15,
NextMonth then PreviousMonth lands on 2024-02-01, not the original date. -/
theorem C2_counterexample :
    (update (update ⟨⟨2024, 2, 15⟩, none⟩ Message.NextMonth)
        Message.PreviousMonth).current_date ≠
      (⟨⟨2024, 2, 15⟩, none⟩ : CalendarApp).current_date := by decide

/-- Claim C7: for day-1 anchors, NextMonth and PreviousMonth are mutually
inverse on the anchor, and NextMonth moves to exactly the following month,
wrapping December to January with the year incremented. -/
theorem C7_nav_round_trip : ∀ s : CalendarApp, s.current_date.Valid →
    s.current_date.day = 1 →
    ((update (update s Message.NextMonth) Message.PreviousMonth).current_date =
        s.current_date ∧
     (update (update s Message.PreviousMonth) Message.NextMonth).current_date =
        s.current_date ∧
     (update s Message.NextMonth).current_date.day = 1 ∧
     (update s Message.NextMonth).current_date.month =
        (if s.current_date.month = 12 then 1 else s.current_date.month + 1) ∧
     (update s Message.NextMonth).current_date.year =
        (if s.current_date.month = 12 then s.current_date.year + 1
         else s.current_date.year)) := by
  intro s hv h1
  have hd1 : withDay1 s.current_date = s.current_date :=
    (withDay1_eq_self_iff s.current_date).mpr h1
  have hrnp : (update (update s Message.NextMonth) Message.PreviousMonth).current_date =
      prevAnchor (nextAnchor s.current_date) := rfl
  have hrpn : (update (update s Message.PreviousMonth) Message.NextMonth).current_date =
      nextAnchor (prevAnchor s.current_date) := rfl
  have hrn : (update s Message.NextMonth).current_date = nextAnchor s.current_date := rfl
  refine ⟨?_, ?_, ?_, ?_, ?_⟩
  · rw [hrnp, prev_next_anchor hv, hd1]
  · rw [hrpn, next_prev_anchor hv, hd1]
  · rw [hrn, nextAnchor_eq hv]
  · rw [hrn, nextAnchor_eq hv]
    show (monthSucc s.current_date.year s.current_date.month).2 = _
    unfold monthSucc
    by_cases hm : s.current_date.month = 12 <;> simp [hm]
  · rw [hrn, nextAnchor_eq hv]
    show (monthSucc s.current_date.year s.current_date.month).1 = _
    unfold monthSucc
    by_cases hm : s.current_date.month = 12 <;> simp [hm]

/-- Witness for C7 at the December 2024 anchor. -/
theorem C7_nav_round_trip_witness :
    (update (update ⟨⟨2024, 12, 1⟩, none⟩ Message.NextMonth)
        Message.PreviousMonth).current_date =
      (⟨⟨2024, 12, 1⟩, none⟩ : CalendarApp).current_date ∧
    (update (update ⟨⟨2024, 12, 1⟩, none⟩ Message.PreviousMonth)
        Message.NextMonth).current_date =
      (⟨⟨2024, 12, 1⟩, none⟩ : CalendarApp).current_date ∧
    (update ⟨⟨2024, 12, 1⟩, none⟩ Message.NextMonth).current_date.day = 1 ∧
    (update ⟨⟨2024, 12, 1⟩, none⟩ Message.NextMonth).current_date.month =
      (if (⟨⟨2024, 12, 1⟩, none⟩ : CalendarApp).current_date.month = 12 then 1
       else (⟨⟨2024, 12, 1⟩, none⟩ : CalendarApp).current_date.month + 1) ∧
    (update ⟨⟨2024, 12, 1⟩, none⟩ Message.NextMonth).current_date.year =
      (if (⟨⟨2024, 12, 1⟩, none⟩ : CalendarApp).current_date.month = 12
       then (⟨⟨2024, 12, 1⟩, none⟩ : CalendarApp).current_date.year + 1
       else (⟨⟨2024, 12, 1⟩, none⟩ : CalendarApp).current_date.year) :=
  C7_nav_round_trip ⟨⟨2024, 12, 1⟩, none⟩ (by decide) rfl

/-- Claim C8: month navigation never touches the selection, selection events
never touch the month anchor, and selecting then going back restores the
grid view (no selection) with the anchor unchanged. -/
theorem C8_frame_conditions : ∀ (s : CalendarApp) (d : Date),
    (update s Message.PreviousMonth).selected_date = s.selected_date ∧
    (update s Message.NextMonth).selected_date = s.selected_date ∧
    (update s (Message.DateSelected d)).current_date = s.current_date ∧
    (update s Message.BackToCalendar).current_date = s.current_date ∧
    update (update s (Message.DateSelected d)) Message.BackToCalendar =
      ⟨s.current_date, none⟩ := by
  intro s d
  unfold update
  exact ⟨rfl, rfl, rfl, rfl, rfl⟩

/-- Claim C9: `with_day(1)` succeeds (returns `Some`) at every call site of
the source, so none of the `unwrap()` calls can panic: on the current date
itself, on the two intermediate dates of the navigation transitions, and on
`current_date + 32 days` in `calendar_view`. -/
theorem C9_with_day1_total : ∀ d : Date, d.Valid →
    (withDay d 1 = some (withDay1 d) ∧
     withDay (subDays (withDay1 d) 1) 1 = some (withDay1 (subDays (withDay1 d) 1)) ∧
     withDay (addDays (withDay1 d) 32) 1 = some (withDay1 (addDays (withDay1 d) 32)) ∧
     withDay (addDays d 32) 1 = some (withDay1 (addDays d 32))) :=
  fun d _ => ⟨withDay_one d, withDay_one _, withDay_one _, withDay_one _⟩

/-- Witness for C9 at a concrete date. -/
theorem C9_with_day1_total_witness :
    withDay ⟨2024, 2, 15⟩ 1 = some (withDay1 ⟨2024, 2, 15⟩) ∧
    withDay (subDays (withDay1 ⟨2024, 2, 15⟩) 1) 1 =
      some (withDay1 (subDays (withDay1 ⟨2024, 2, 15⟩) 1)) ∧
    withDay (addDays (withDay1 ⟨2024, 2, 15⟩) 32) 1 =
      some (withDay1 (addDays (withDay1 ⟨2024, 2, 15⟩) 32)) ∧
    withDay (addDays ⟨2024, 2, 15⟩ 32) 1 = some (withDay1 (addDays ⟨2024, 2, 15⟩ 32)) :=
  C9_with_day1_total ⟨2024, 2, 15⟩ (by decide)

/-- Claim C10: the grid of a day-1 anchor never exceeds 6 week rows, i.e. 42
cells, because the Sunday-aligned span of a month is at most 31 + 6 days. -/
theorem C10_grid_size_bound : ∀ a : Date, a.Valid → a.day = 1 →
    (buildGrid a).length ≤ 42 := by
  intro a hv h1
  rw [buildGrid_length hv h1, numWeeks_anchor hv h1]
  have hL := daysInMonth_le a.year a.month
  have hw : numDaysFromSunday a ≤ 6 := (grid_anchor_facts hv h1).2.2.2.2
  omega

/-- Witness for C10 at the February 2024 anchor. -/
theorem C10_grid_size_bound_witness : (buildGrid ⟨2024, 2, 1⟩).length ≤ 42 :=
  C10_grid_size_bound ⟨2024, 2, 1⟩ (by decide) rfl

/-- Claim C3: on every valid date the source zodiac match returns exactly
the sign of the unique boundary-table range containing (month, day), never
"Unknown"; February 29 maps to Pisces. -/
theorem C3_zodiac_table : (∀ d : Date, d.Valid →
    (get_zodiac_sign d ≠ "Unknown" ∧
      ∃ r ∈ zodiacTable, inZodiacRange r d.month d.day = true ∧
        get_zodiac_sign d = r.sign ∧
        ∀ r2 ∈ zodiacTable, inZodiacRange r2 d.month d.day = true → r2 = r)) ∧
    get_zodiac_sign ⟨2024, 2, 29⟩ = "Pisces" := by
  constructor
  · intro d hv
    have hm12 : d.month ≤ 12 := hv.2.1
    have hmax : d.day ≤ monthMaxDays d.month :=
      le_trans hv.2.2.2 (daysInMonth_le_max d.year d.month)
    have hm31 : monthMaxDays d.month ≤ 31 := daysInMonth_le 4 d.month
    have heq : get_zodiac_sign d = get_zodiac_sign ⟨1, d.month, d.day⟩ := rfl
    rw [heq]
    exact zodiac_check d.month (by omega) d.day (by omega) ⟨hv.1, hv.2.2.1, hmax⟩
  · decide

/-- Witness for C3 on the leap day. -/
theorem C3_zodiac_table_witness :
    get_zodiac_sign ⟨2024, 2, 29⟩ ≠ "Unknown" ∧
      ∃ r ∈ zodiacTable, inZodiacRange r (⟨2024, 2, 29⟩ : Date).month
          (⟨2024, 2, 29⟩ : Date).day = true ∧
        get_zodiac_sign ⟨2024, 2, 29⟩ = r.sign ∧
        ∀ r2 ∈ zodiacTable, inZodiacRange r2 (⟨2024, 2, 29⟩ : Date).month
          (⟨2024, 2, 29⟩ : Date).day = true → r2 = r :=
  C3_zodiac_table.1 ⟨2024, 2, 29⟩ (by decide)

/-- Claim C6: the detail-view week number (chrono ISO week, modelled from the
spec) equals the first-Thursday ISO-8601 week number on every valid date; on
2023-12-31 it is 52 and on 2024-02-29 it is 9. -/
theorem C6_iso_week_number :
    (∀ d : Date, d.Valid → (computeFacts d).weekNumber = isoWeekSpec d) ∧
    (computeFacts ⟨2023, 12, 31⟩).weekNumber = 52 ∧
    (computeFacts ⟨2024, 2, 29⟩).weekNumber = 9 := by
  refine ⟨?_, by decide, by decide⟩
  intro d hv
  show iso_week d = isoWeekSpec d
  exact iso_week_eq_spec hv

/-- Witness for C6 on the leap day. -/
theorem C6_iso_week_number_witness :
    (computeFacts ⟨2024, 2, 29⟩).weekNumber = isoWeekSpec ⟨2024, 2, 29⟩ :=
  C6_iso_week_number.1 ⟨2024, 2, 29⟩ (by decide)

set_option maxRecDepth 10000 in
/-- Claim C5: the grid of a day-1 anchor has a multiple of 7 of at least 28
cells, starts at the first of the month minus its Sunday-based weekday
index, and advances one day per cell; the 2024-02 grid has 35 cells, first
cell 2024-01-28 (a Sunday) and last cell 2024-03-02 (a Saturday). -/
theorem C5_grid_shape :
    (∀ a : Date, a.Valid → a.day = 1 →
      ((buildGrid a).length % 7 = 0 ∧ 28 ≤ (buildGrid a).length ∧
        gridStart a = subDays (firstDayOf a) (numDaysFromSunday (firstDayOf a)) ∧
        ∀ i, ∀ hi : i < (buildGrid a).length,
          ((buildGrid a).get ⟨i, hi⟩).date = addDays (gridStart a) i)) ∧
    (buildGrid ⟨2024, 2, 1⟩).length = 35 ∧
    ((buildGrid ⟨2024, 2, 1⟩).map GridCell.date).head? = some ⟨2024, 1, 28⟩ ∧
    ((buildGrid ⟨2024, 2, 1⟩).map GridCell.date).getLast? = some ⟨2024, 3, 2⟩ ∧
    numDaysFromSunday ⟨2024, 1, 28⟩ = 0 ∧ numDaysFromSunday ⟨2024, 3, 2⟩ = 6 := by
  refine ⟨?_, by decide, by decide, by decide, by decide, by decide⟩
  intro a hv h1
  have hlen := buildGrid_length hv h1
  have hW := numWeeks_anchor hv h1
  have hL1 := daysInMonth_ge a.year a.month
  have hw6 : numDaysFromSunday a ≤ 6 := (grid_anchor_facts hv h1).2.2.2.2
  refine ⟨?_, ?_, rfl, ?_⟩
  · rw [hlen]
    exact Nat.mul_mod_right 7 _
  · rw [hlen, hW]
    omega
  · intro i hi
    have hc := buildGrid_content hv h1
    rw [List.get_eq_getElem]
    simp only [hc, List.getElem_map, List.getElem_range]

/-- Witness for C5 at the February 2024 anchor. -/
theorem C5_grid_shape_witness :
    (buildGrid ⟨2024, 2, 1⟩).length % 7 = 0 ∧ 28 ≤ (buildGrid ⟨2024, 2, 1⟩).length ∧
      gridStart ⟨2024, 2, 1⟩ =
        subDays (firstDayOf ⟨2024, 2, 1⟩) (numDaysFromSunday (firstDayOf ⟨2024, 2, 1⟩)) ∧
      ∀ i, ∀ hi : i < (buildGrid ⟨2024, 2, 1⟩).length,
        ((buildGrid ⟨2024, 2, 1⟩).get ⟨i, hi⟩).date = addDays (gridStart ⟨2024, 2, 1⟩) i :=
  C5_grid_shape.1 ⟨2024, 2, 1⟩ (by decide) rfl

/-- Claim C4: for a day-1 anchor, each date of the anchor month appears
exactly once among the grid cells, such cells are flagged in-current-month,
and in general a cell is flagged exactly when its month number equals the
anchor month number. -/
theorem C4_month_dates_once : ∀ a x : Date, a.Valid → a.day = 1 → x.Valid →
    dateLe (firstDayOf a) x = true → dateLe x (lastDayOf a) = true →
    ((buildGrid a).countP (fun c => c.date == x) = 1 ∧
     (∀ c ∈ buildGrid a, c.date = x → c.inCurrentMonth = true) ∧
     (∀ c ∈ buildGrid a, (c.inCurrentMonth = true ↔ c.date.month = a.month))) := by
  intro a x hv h1 hx hfx hxl
  have hc := buildGrid_content hv h1
  obtain ⟨hgsv, hlv, hgsrd, hlrd, hw6⟩ := grid_anchor_facts hv h1
  have hfa : firstDayOf a = a := firstDayOf_day1 h1
  rw [hfa] at hfx
  have hax : toRD a ≤ toRD x := (toRD_le_iff_dateLe hv hx).mp hfx
  have hxl2 : toRD x ≤ toRD (lastDayOf a) := (toRD_le_iff_dateLe hx hlv).mp hxl
  have hlasteq := lastDayOf_anchor hv h1
  have hpin : x.year = a.year ∧ x.month = a.month := by
    apply month_pin (y := a.year) (m := a.month) (L := daysInMonth a.year a.month)
    · rw [← day1_eta h1]
      exact hfx
    · rw [← hlasteq]
      exact hxl
  have hflag : ∀ c ∈ buildGrid a, c.inCurrentMonth = (c.date.month == a.month) := by
    intro c hcmem
    rw [hc] at hcmem
    obtain ⟨i, hi, hceq⟩ := List.mem_map.mp hcmem
    rw [← hceq]
  refine ⟨?_, ?_, ?_⟩
  · rw [hc, List.countP_map]
    have hWmul := numWeeks_anchor hv h1
    have hL2 := daysInMonth_le a.year a.month
    have hcong : ∀ i ∈ List.range (7 * numWeeks (gridStart a) (lastDayOf a)),
        (((fun c => c.date == x) ∘ fun i =>
          (⟨addDays (gridStart a) i,
            (addDays (gridStart a) i).month == a.month⟩ : GridCell)) i = true ↔
          (i == (toRD x - toRD (gridStart a)).toNat) = true) := by
      intro i hi
      simp only [Function.comp, beq_iff_eq]
      have hrd : toRD (addDays (gridStart a) i) = toRD (gridStart a) + i :=
        toRD_addDays hgsv i
      constructor
      · intro he
        have hrd2 := congrArg toRD he
        rw [hrd] at hrd2
        omega
      · intro he
        subst he
        apply toRD_inj (addDays_valid hgsv _) hx
        rw [hrd]
        omega
    rw [List.countP_congr hcong]
    show (List.range (7 * numWeeks (gridStart a) (lastDayOf a))).count
      ((toRD x - toRD (gridStart a)).toNat) = 1
    refine List.count_eq_one_of_mem (List.nodup_range _) (List.mem_range.mpr ?_)
    rw [numWeeks_anchor hv h1]
    omega
  · intro c hcmem hdat
    rw [hflag c hcmem, hdat, beq_iff_eq]
    exact hpin.2
  · intro c hcmem
    rw [hflag c hcmem]
    exact beq_iff_eq

set_option maxRecDepth 10000 in
/-- Witness for C4: 2024-02-15 in the February 2024 grid. -/
theorem C4_month_dates_once_witness :
    (buildGrid ⟨2024, 2, 1⟩).countP (fun c => c.date == ⟨2024, 2, 15⟩) = 1 ∧
    (∀ c ∈ buildGrid ⟨2024, 2, 1⟩, c.date = ⟨2024, 2, 15⟩ → c.inCurrentMonth = true) ∧
    (∀ c ∈ buildGrid ⟨2024, 2, 1⟩,
      (c.inCurrentMonth = true ↔ c.date.month = (⟨2024, 2, 1⟩ : Date).month)) :=
  C4_month_dates_once ⟨2024, 2, 1⟩ ⟨2024, 2, 15⟩ (by decide) rfl (by decide)
    (by decide) (by decide)

end CalendarView
